import Mathlib

/-
Shallow embedding of the main-thread presentation layer of vim.wasm
(src/wasm/main.ts): the render queue, the message protocol with its shared
wake cell, the debounced resize pipeline and the filtered key-input
pipeline.  Machine numbers (CSS pixels, device-pixel ratios) are modelled
as rationals; DOM / canvas side effects are modelled as explicit effect
lists; the per-millisecond timer loop of the browser is modelled as a
discrete-time step function.
-/

/-! ## Protocol data model -/

/-- Positional argument of a draw instruction sent by the worker. -/
inductive DrawArg where
  | num (value : ℚ)
  | str (value : String)
  | flag (value : Bool)
  deriving DecidableEq

/-- A draw event message is a method name with its ordered positional
arguments, as delivered by the worker inside a draw message. -/
abbrev DrawEventMessage := String × List DrawArg

/-- Messages sent from the main thread to the worker.  The start message
also carries the shared buffer handle in the source; the handle itself has
no observable structure here. -/
inductive MessageFromMain where
  | start (canvasDomHeight canvasDomWidth : ℚ) (debug : Bool)
  | resize (height width : ℚ)
  | key (code : String) (keyCode : Int) (key : String) (ctrl shift alt meta : Bool)
  deriving DecidableEq

/-- Messages received from the worker.  The unknown constructor stands for
any message kind that is none of the four recognized ones. -/
inductive MessageFromWorker where
  | draw (event : DrawEventMessage)
  | started
  | exit
  | fatal (message : String)
  | unknown (kind : String)
  deriving DecidableEq

/-- Observable side effects of the input pipeline on the transport. -/
inductive WorkerEffect where
  | awake
  | send (msg : MessageFromMain)
  deriving DecidableEq

/-! ## VimWorker: the shared wake cell

The source allocates a SharedArrayBuffer of exactly one 32-bit integer
element (zero-initialized by the platform) and wakes the worker by an
atomic store of 1 at index 0. -/

namespace VimWorker

/-- Initial content of the one-element shared buffer. -/
def sharedBuffer0 : Fin 1 → Int := fun _ => 0

/-- Atomics store of the value 1 at index 0 of the shared buffer. -/
def awakeWorkerThread (buf : Fin 1 → Int) : Fin 1 → Int :=
  Function.update buf 0 1

end VimWorker

/-! ## InputHandler: the keydown filter -/

/-- The fields of a browser keydown event that the handler reads. -/
structure KeyboardEvent where
  key : String
  code : String
  keyCode : Int
  ctrlKey : Bool
  shiftKey : Bool
  altKey : Bool
  metaKey : Bool
  deriving DecidableEq

namespace InputHandler

/-- Keydown handler of the input element: multi-character identifiers that
are Unidentified or a modifier key whose same-kind flag is already set are
dropped; every other event wakes the worker and sends one key message. -/
def onKeydown (event : KeyboardEvent) : List WorkerEffect :=
  if event.key.length > 1 ∧
      (event.key = "Unidentified" ∨
        (event.ctrlKey ∧ event.key = "Control") ∨
        (event.shiftKey ∧ event.key = "Shift") ∨
        (event.altKey ∧ event.key = "Alt") ∨
        (event.metaKey ∧ event.key = "Meta")) then
    []
  else
    [WorkerEffect.awake,
      WorkerEffect.send (MessageFromMain.key event.code event.keyCode event.key
        event.ctrlKey event.shiftKey event.altKey event.metaKey)]

end InputHandler

/-- The drop condition of the input filter, as the spec words it: a
multi-character key identifier that is Unidentified or a modifier key whose
same-kind modifier flag is already active. -/
def keyIsDropped (event : KeyboardEvent) : Prop :=
  event.key.length > 1 ∧
    (event.key = "Unidentified" ∨
      (event.ctrlKey = true ∧ event.key = "Control") ∨
      (event.shiftKey = true ∧ event.key = "Shift") ∨
      (event.altKey = true ∧ event.key = "Alt") ∨
      (event.metaKey = true ∧ event.key = "Meta"))

instance (event : KeyboardEvent) : Decidable (keyIsDropped event) := by
  unfold keyIsDropped
  infer_instance

/-! ## Claim theorems for the input filter and the wake cell -/

/-- Claim C3: a keydown whose key identifier is longer than one character
and is Unidentified, or a modifier key whose same-kind modifier flag is
already active, produces no outbound message and no wake signal; every
other keydown wakes the worker and then sends exactly one key message
carrying code, keyCode, key and the four modifier flags. -/
theorem c3_input_filter (event : KeyboardEvent) :
    (keyIsDropped event → InputHandler.onKeydown event = []) ∧
    (¬ keyIsDropped event →
      InputHandler.onKeydown event =
        [WorkerEffect.awake,
          WorkerEffect.send (MessageFromMain.key event.code event.keyCode event.key
            event.ctrlKey event.shiftKey event.altKey event.metaKey)]) := by
  constructor <;> intro h
  · rw [InputHandler.onKeydown, if_pos]
    exact h
  · rw [InputHandler.onKeydown, if_neg]
    exact h

/-- Witness for C3: the spec scenario.  A keydown with key Control while
ctrl is active is filtered; a keydown with key a and ctrl active produces a
wake followed by one key message. -/
theorem c3_input_filter_witness :
    InputHandler.onKeydown
        { key := "Control", code := "ControlLeft", keyCode := 17,
          ctrlKey := true, shiftKey := false, altKey := false, metaKey := false } = [] ∧
    InputHandler.onKeydown
        { key := "a", code := "KeyA", keyCode := 65,
          ctrlKey := true, shiftKey := false, altKey := false, metaKey := false } =
      [WorkerEffect.awake,
        WorkerEffect.send (MessageFromMain.key ("KeyA") 65 ("a") true false false false)] :=
  ⟨(c3_input_filter _).1 (by decide),
    (c3_input_filter
      { key := "a", code := "KeyA", keyCode := 65,
        ctrlKey := true, shiftKey := false, altKey := false, metaKey := false }).2
      (by decide)⟩

/-- Claim C7: the wake cell is a single integer cell with initial value 0;
wake is an atomic store of 1, after any positive number of wakes the cell
holds 1, and wake composed with wake equals wake. -/
theorem c7_wake_cell :
    VimWorker.sharedBuffer0 0 = 0 ∧
    (∀ buf : Fin 1 → Int, VimWorker.awakeWorkerThread buf 0 = 1) ∧
    (∀ (buf : Fin 1 → Int) (n : ℕ), 1 ≤ n →
      (VimWorker.awakeWorkerThread^[n] buf) 0 = 1) ∧
    (∀ buf : Fin 1 → Int,
      VimWorker.awakeWorkerThread (VimWorker.awakeWorkerThread buf) =
        VimWorker.awakeWorkerThread buf) := by
  refine ⟨rfl, fun buf => ?_, fun buf n hn => ?_, fun buf => ?_⟩
  · simp [VimWorker.awakeWorkerThread]
  · obtain ⟨m, rfl⟩ := Nat.exists_eq_add_of_le hn
    rw [Nat.add_comm, Function.iterate_succ_apply']
    simp [VimWorker.awakeWorkerThread]
  · simp [VimWorker.awakeWorkerThread, Function.update_idem]

/-- Witness for C7: two consecutive wakes starting from the initial buffer
leave the cell holding 1. -/
theorem c7_wake_cell_witness :
    (VimWorker.awakeWorkerThread^[2] VimWorker.sharedBuffer0) 0 = 1 :=
  c7_wake_cell.2.2.1 VimWorker.sharedBuffer0 2 (by decide)

/-! ## InputHandler and ScreenCanvas style state -/

/-- CSS style of the hidden input element that the input handler owns. -/
structure ElemStyle where
  fontFamily : String
  fontSize : String
  deriving DecidableEq

namespace InputHandler

/-- InputHandler setFont: writes the font family and the pixel font size
into the CSS style of the hidden input element. -/
def setFont (elem : ElemStyle) (name : String) (size : ℚ) : ElemStyle :=
  { elem with fontFamily := name, fontSize := toString size ++ "px" }

end InputHandler

/-- Mutable style state of the screen canvas: the currently selected
colors and font, plus the style of the owned hidden input element. -/
structure CanvasState where
  fgColor : String
  bgColor : String
  spColor : String
  fontName : String
  inputElem : ElemStyle
  deriving DecidableEq

/-- Primitive operations issued against the 2D canvas context.  Integer
coordinates are device pixels obtained by flooring. -/
inductive CanvasOp where
  | setFillStyle (color : String)
  | fillRect (x y w h : Int)
  | rectPath (x y w h : Int)
  | setFont (font : String)
  | setTextBaseline (mode : String)
  | fillText (glyph : Char) (x y : Int)
  | setStrokeStyle (color : String)
  | setLineWidth (w : ℚ)
  | setLineDash (dash : List Int)
  | beginPath
  | moveTo (x y : Int)
  | lineTo (x y : Int)
  | stroke
  | drawImage (sx sy sw sh dx dy dw dh : Int)
  deriving DecidableEq

namespace ScreenCanvas

/-- ScreenCanvas setFont: records the font name in the style state and
forwards name and size to the hidden input element; it issues no canvas
operation. -/
def setFont (s : CanvasState) (name : String) (size : ℚ) : CanvasState × List CanvasOp :=
  ({ s with fontName := name, inputElem := InputHandler.setFont s.inputElem name size }, [])

/-- ScreenCanvas setColorFG. -/
def setColorFG (s : CanvasState) (name : String) : CanvasState × List CanvasOp :=
  ({ s with fgColor := name }, [])

/-- ScreenCanvas setColorBG. -/
def setColorBG (s : CanvasState) (name : String) : CanvasState × List CanvasOp :=
  ({ s with bgColor := name }, [])

/-- ScreenCanvas setColorSP. -/
def setColorSP (s : CanvasState) (name : String) : CanvasState × List CanvasOp :=
  ({ s with spColor := name }, [])

/-- The byte loop of invertRect: complements three consecutive channel
bytes, skips the fourth (alpha), and repeats until the data is exhausted. -/
def invertData : List ℕ → List ℕ
  | r :: g :: b :: a :: rest => (255 - r) :: (255 - g) :: (255 - b) :: a :: invertData rest
  | [r, g, b] => [255 - r, 255 - g, 255 - b]
  | [r, g] => [255 - r, 255 - g]
  | [r] => [255 - r]
  | [] => []

/-- ScreenCanvas invertRect: floors the scaled rectangle, reads the image
data of that rectangle back, runs the channel-complement loop over it and
writes the result back at the same position.  The result is the floored
rectangle together with the data written back. -/
def invertRect (x y w h : ℚ) (dpr : ℚ) (img : List ℕ) :
    (Int × Int × Int × Int) × List ℕ :=
  ((⌊x * dpr⌋, ⌊y * dpr⌋, ⌊w * dpr⌋, ⌊h * dpr⌋), invertData img)

end ScreenCanvas

/-- Flattening of a pixel list (RGBA quadruples) into the flat byte layout
of canvas image data. -/
def pixelsToData : List (ℕ × ℕ × ℕ × ℕ) → List ℕ
  | [] => []
  | (r, g, b, a) :: ps => r :: g :: b :: a :: pixelsToData ps

/-- Per-pixel complement as the spec words it: each color channel is
complemented, the alpha channel is unchanged. -/
def invertPixel (p : ℕ × ℕ × ℕ × ℕ) : ℕ × ℕ × ℕ × ℕ :=
  (255 - p.1, 255 - p.2.1, 255 - p.2.2.1, p.2.2.2)

/-! ## Render queue -/

/-- State of the coalescing draw-event queue: the queued instructions, the
scheduled flag, and the number of refresh-callback registrations currently
outstanding with the browser. -/
structure ScreenState where
  queue : List DrawEventMessage
  rafScheduled : Bool
  rafPending : ℕ
  deriving DecidableEq

namespace ScreenCanvas

/-- ScreenCanvas enqueue: registers a refresh callback only when none is
scheduled, marks the flag, and appends the message to the queue. -/
def enqueue (s : ScreenState) (msg : DrawEventMessage) : ScreenState :=
  let s1 := if s.rafScheduled then s
    else { s with rafPending := s.rafPending + 1, rafScheduled := true }
  { s1 with queue := s1.queue ++ [msg] }

/-- ScreenCanvas onAnimationFrame: the flush.  It applies every queued
instruction in order (returned as the application trace), then clears the
queue, un-marks the scheduled flag, and consumes the one refresh-callback
registration that invoked it. -/
def onAnimationFrame (s : ScreenState) : List DrawEventMessage × ScreenState :=
  (s.queue, { queue := [], rafScheduled := false, rafPending := s.rafPending - 1 })

end ScreenCanvas

lemma enqueue_queue (s : ScreenState) (msg : DrawEventMessage) :
    (ScreenCanvas.enqueue s msg).queue = s.queue ++ [msg] := by
  by_cases h : s.rafScheduled <;> simp [ScreenCanvas.enqueue, h]

lemma enqueue_scheduled (s : ScreenState) (msg : DrawEventMessage) :
    (ScreenCanvas.enqueue s msg).rafScheduled = true := by
  by_cases h : s.rafScheduled <;> simp [ScreenCanvas.enqueue, h]

lemma enqueue_pending (s : ScreenState) (msg : DrawEventMessage) :
    (ScreenCanvas.enqueue s msg).rafPending =
      if s.rafScheduled then s.rafPending else s.rafPending + 1 := by
  by_cases h : s.rafScheduled <;> simp [ScreenCanvas.enqueue, h]

lemma foldl_enqueue_queue (msgs : List DrawEventMessage) (s : ScreenState) :
    (msgs.foldl ScreenCanvas.enqueue s).queue = s.queue ++ msgs := by
  induction msgs generalizing s with
  | nil => simp
  | cons m ms ih => simp [List.foldl_cons, ih, enqueue_queue]

lemma foldl_enqueue_scheduled (msgs : List DrawEventMessage) (s : ScreenState)
    (hne : msgs ≠ []) : (msgs.foldl ScreenCanvas.enqueue s).rafScheduled = true := by
  induction msgs generalizing s with
  | nil => exact absurd rfl hne
  | cons m ms ih =>
    rcases eq_or_ne ms [] with h | h
    · subst h
      simpa using enqueue_scheduled s m
    · simpa using ih (ScreenCanvas.enqueue s m) h

lemma foldl_enqueue_pending (msgs : List DrawEventMessage) (s : ScreenState)
    (hne : msgs ≠ []) :
    (msgs.foldl ScreenCanvas.enqueue s).rafPending =
      if s.rafScheduled then s.rafPending else s.rafPending + 1 := by
  induction msgs generalizing s with
  | nil => exact absurd rfl hne
  | cons m ms ih =>
    rcases eq_or_ne ms [] with h | h
    · subst h
      simpa using enqueue_pending s m
    · rw [List.foldl_cons, ih (ScreenCanvas.enqueue s m) h,
        enqueue_scheduled s m, enqueue_pending s m]
      simp

/-- Claim C1: starting from a flushed queue state, any sequence of enqueues
keeps at most one refresh-callback registration outstanding at every
moment, ends with exactly one registration outstanding (so exactly one
flush will execute), and that flush applies every queued instruction in
the exact order enqueued and then clears the queue, un-marks the scheduled
flag and consumes the registration. -/
theorem c1_render_queue_coalescing (msgs : List DrawEventMessage)
    (hne : msgs ≠ []) :
    (∀ p q : List DrawEventMessage, msgs = p ++ q →
      (p.foldl ScreenCanvas.enqueue ⟨[], false, 0⟩).rafPending ≤ 1) ∧
    (msgs.foldl ScreenCanvas.enqueue ⟨[], false, 0⟩).rafPending = 1 ∧
    (ScreenCanvas.onAnimationFrame (msgs.foldl ScreenCanvas.enqueue ⟨[], false, 0⟩)).1 =
      msgs ∧
    (ScreenCanvas.onAnimationFrame (msgs.foldl ScreenCanvas.enqueue ⟨[], false, 0⟩)).2 =
      (⟨[], false, 0⟩ : ScreenState) := by
  refine ⟨fun p q hpq => ?_, ?_, ?_, ?_⟩
  · rcases eq_or_ne p [] with h | h
    · simp [h]
    · rw [foldl_enqueue_pending p _ h]
      simp
  · rw [foldl_enqueue_pending msgs _ hne]
    simp
  · simp [ScreenCanvas.onAnimationFrame, foldl_enqueue_queue]
  · simp [ScreenCanvas.onAnimationFrame, foldl_enqueue_pending msgs _ hne]

/-- Witness for C1: the spec scenario of three draw messages arriving
before the next refresh tick. -/
theorem c1_render_queue_coalescing_witness :
    (([(("drawRect" : String), ([] : List DrawArg)), (("drawText"), ([])),
        (("invertRect"), ([]))] : List DrawEventMessage).foldl
          ScreenCanvas.enqueue ⟨[], false, 0⟩).rafPending = 1 ∧
    (ScreenCanvas.onAnimationFrame
        (([(("drawRect" : String), ([] : List DrawArg)), (("drawText"), ([])),
          (("invertRect"), ([]))] : List DrawEventMessage).foldl
            ScreenCanvas.enqueue ⟨[], false, 0⟩)).1 =
      [(("drawRect"), ([])), (("drawText"), ([])), (("invertRect"), ([]))] :=
  ⟨(c1_render_queue_coalescing _ (by decide)).2.1,
    (c1_render_queue_coalescing
      [(("drawRect" : String), ([] : List DrawArg)), (("drawText"), ([])),
        (("invertRect"), ([]))] (by decide)).2.2.1⟩

/-- Claim C6: the invert loop complements the three color channels of
every pixel and leaves the alpha channel unchanged, and region inversion
applied twice to the same rectangle restores the original data exactly
(all image-data bytes are at most 255). -/
theorem c6_invert_involutive :
    (∀ ps : List (ℕ × ℕ × ℕ × ℕ),
      ScreenCanvas.invertData (pixelsToData ps) = pixelsToData (ps.map invertPixel)) ∧
    (∀ (x y w h dpr : ℚ) (img : List ℕ), (∀ v ∈ img, v ≤ 255) →
      (ScreenCanvas.invertRect x y w h dpr
        (ScreenCanvas.invertRect x y w h dpr img).2).2 = img) := by
  have hinv : ∀ d : List ℕ, (∀ v ∈ d, v ≤ 255) →
      ScreenCanvas.invertData (ScreenCanvas.invertData d) = d := by
    intro d hd
    induction d using ScreenCanvas.invertData.induct with
    | case1 r g b a rest ih =>
      rw [ScreenCanvas.invertData, ScreenCanvas.invertData]
      have hr : r ≤ 255 := hd r (by simp)
      have hg : g ≤ 255 := hd g (by simp)
      have hb : b ≤ 255 := hd b (by simp)
      rw [Nat.sub_sub_self hr, Nat.sub_sub_self hg, Nat.sub_sub_self hb,
        ih fun v hv => hd v (by simp [hv])]
    | case2 r g b =>
      have hr : r ≤ 255 := hd r (by simp)
      have hg : g ≤ 255 := hd g (by simp)
      have hb : b ≤ 255 := hd b (by simp)
      simp [ScreenCanvas.invertData, Nat.sub_sub_self, hr, hg, hb]
    | case3 r g =>
      have hr : r ≤ 255 := hd r (by simp)
      have hg : g ≤ 255 := hd g (by simp)
      simp [ScreenCanvas.invertData, Nat.sub_sub_self, hr, hg]
    | case4 r =>
      have hr : r ≤ 255 := hd r (by simp)
      simp [ScreenCanvas.invertData, Nat.sub_sub_self, hr]
    | case5 => simp [ScreenCanvas.invertData]
  refine ⟨fun ps => ?_, fun x y w h dpr img himg => ?_⟩
  · induction ps with
    | nil => simp [pixelsToData, ScreenCanvas.invertData]
    | cons p ps ih =>
      obtain ⟨r, g, b, a⟩ := p
      simp [pixelsToData, ScreenCanvas.invertData, invertPixel, ih]
  · exact hinv img himg

/-- Witness for C6: inverting a concrete two-pixel rectangle twice
restores the original data. -/
theorem c6_invert_involutive_witness :
    (ScreenCanvas.invertRect 0 0 2 1 1
      (ScreenCanvas.invertRect 0 0 2 1 1 [10, 20, 30, 40, 250, 0, 7, 255]).2).2 =
      [10, 20, 30, 40, 250, 0, 7, 255] :=
  c6_invert_involutive.2 0 0 2 1 1 [10, 20, 30, 40, 250, 0, 7, 255] (by decide)

/-- Claim C10: executing the set-font instruction updates the render
queue's current font name and, as a side effect, the hidden input
element's CSS font family and font size; it issues no canvas operation,
and the color state is untouched. -/
theorem c10_set_font_effect (s : CanvasState) (name : String) (size : ℚ) :
    (ScreenCanvas.setFont s name size).1.fontName = name ∧
    (ScreenCanvas.setFont s name size).1.inputElem.fontFamily = name ∧
    (ScreenCanvas.setFont s name size).1.inputElem.fontSize = toString size ++ "px" ∧
    (ScreenCanvas.setFont s name size).2 = [] ∧
    (ScreenCanvas.setFont s name size).1.fgColor = s.fgColor ∧
    (ScreenCanvas.setFont s name size).1.bgColor = s.bgColor ∧
    (ScreenCanvas.setFont s name size).1.spColor = s.spColor := by
  refine ⟨rfl, rfl, rfl, rfl, rfl, rfl, rfl⟩

/-! ## Drawing primitives: drawRect and drawText -/

namespace ScreenCanvas

/-- ScreenCanvas drawRect: floors every scaled geometric argument, sets
the fill style, then either fills the rectangle or adds it to the current
path (the source calls the path-building rect operation in the unfilled
branch). -/
def drawRect (x y w h : ℚ) (color : String) (filled : Bool) (dpr : ℚ) :
    List CanvasOp :=
  let xi : Int := ⌊x * dpr⌋
  let yi : Int := ⌊y * dpr⌋
  let wi : Int := ⌊w * dpr⌋
  let hi : Int := ⌊h * dpr⌋
  CanvasOp.setFillStyle color ::
    (if filled then [CanvasOp.fillRect xi yi wi hi] else [CanvasOp.rectPath xi yi wi hi])

/-- ScreenCanvas drawText: scales each geometric argument by the
device-pixel ratio first, then floors the derived values exactly where the
source does; emits the font, baseline and fill-style settings, one
fillText per glyph at fixed per-column advance, and at most one decoration
path. -/
def drawText (s : CanvasState) (text : List Char) (ch lh cw x y : ℚ)
    (bold underline undercurl strike : Bool) (dpr : ℚ) : List CanvasOp :=
  let chS := ch * dpr
  let lhS := lh * dpr
  let cwS := cw * dpr
  let xS := x * dpr
  let yS := y * dpr
  let font := (if bold then "bold " else "") ++ toString ⌊chS⌋ ++ "px " ++ s.fontName
  let yi : Int := ⌊yS + lhS⌋
  let glyphs := text.enum.map fun p =>
    CanvasOp.fillText p.2 ⌊xS + cwS * (p.1 : ℚ)⌋ yi
  let deco : List CanvasOp :=
    if underline then
      [CanvasOp.setStrokeStyle s.fgColor, CanvasOp.setLineWidth (1 * dpr),
        CanvasOp.setLineDash [], CanvasOp.beginPath,
        CanvasOp.moveTo ⌊xS⌋ ⌊yS + lhS - 3 * dpr⌋,
        CanvasOp.lineTo ⌊xS + cwS * (text.length : ℚ)⌋ ⌊yS + lhS - 3 * dpr⌋,
        CanvasOp.stroke]
    else if undercurl then
      [CanvasOp.setStrokeStyle s.spColor, CanvasOp.setLineWidth (1 * dpr),
        CanvasOp.setLineDash [⌊cwS / 3⌋, ⌊cwS / 3⌋], CanvasOp.beginPath,
        CanvasOp.moveTo ⌊xS⌋ ⌊yS + lhS - 3 * dpr⌋,
        CanvasOp.lineTo ⌊xS + cwS * (text.length : ℚ)⌋ ⌊yS + lhS - 3 * dpr⌋,
        CanvasOp.stroke]
    else if strike then
      [CanvasOp.setStrokeStyle s.fgColor, CanvasOp.setLineWidth (1 * dpr),
        CanvasOp.beginPath,
        CanvasOp.moveTo ⌊xS⌋ ⌊yS + lhS / 2⌋,
        CanvasOp.lineTo ⌊xS + cwS * (text.length : ℚ)⌋ ⌊yS + lhS / 2⌋,
        CanvasOp.stroke]
    else []
  [CanvasOp.setFont font, CanvasOp.setTextBaseline ("ideographic"),
    CanvasOp.setFillStyle s.fgColor] ++ glyphs ++ deco

end ScreenCanvas

/-- Specification-side form of drawRect: every device-pixel coordinate is
written directly as the floor of the logical value times the device-pixel
ratio. -/
def drawRectSpec (x y w h : ℚ) (color : String) (filled : Bool) (dpr : ℚ) :
    List CanvasOp :=
  CanvasOp.setFillStyle color ::
    (if filled then [CanvasOp.fillRect ⌊x * dpr⌋ ⌊y * dpr⌋ ⌊w * dpr⌋ ⌊h * dpr⌋]
      else [CanvasOp.rectPath ⌊x * dpr⌋ ⌊y * dpr⌋ ⌊w * dpr⌋ ⌊h * dpr⌋])

/-- Specification-side form of drawText: every device-pixel coordinate is
written as the floor of the corresponding logical-space value times the
device-pixel ratio; glyph number i sits at logical abscissa x plus cw
times i, the baseline at logical ordinate y plus lh, decorations three
logical pixels above the baseline or at mid line height. -/
def drawTextSpec (s : CanvasState) (text : List Char) (ch lh cw x y : ℚ)
    (bold underline undercurl strike : Bool) (dpr : ℚ) : List CanvasOp :=
  let font := (if bold then "bold " else "") ++ toString ⌊ch * dpr⌋ ++ "px " ++ s.fontName
  let glyphs := text.enum.map fun p =>
    CanvasOp.fillText p.2 ⌊(x + cw * (p.1 : ℚ)) * dpr⌋ ⌊(y + lh) * dpr⌋
  let deco : List CanvasOp :=
    if underline then
      [CanvasOp.setStrokeStyle s.fgColor, CanvasOp.setLineWidth (1 * dpr),
        CanvasOp.setLineDash [], CanvasOp.beginPath,
        CanvasOp.moveTo ⌊x * dpr⌋ ⌊(y + lh - 3) * dpr⌋,
        CanvasOp.lineTo ⌊(x + cw * (text.length : ℚ)) * dpr⌋ ⌊(y + lh - 3) * dpr⌋,
        CanvasOp.stroke]
    else if undercurl then
      [CanvasOp.setStrokeStyle s.spColor, CanvasOp.setLineWidth (1 * dpr),
        CanvasOp.setLineDash [⌊(cw / 3) * dpr⌋, ⌊(cw / 3) * dpr⌋], CanvasOp.beginPath,
        CanvasOp.moveTo ⌊x * dpr⌋ ⌊(y + lh - 3) * dpr⌋,
        CanvasOp.lineTo ⌊(x + cw * (text.length : ℚ)) * dpr⌋ ⌊(y + lh - 3) * dpr⌋,
        CanvasOp.stroke]
    else if strike then
      [CanvasOp.setStrokeStyle s.fgColor, CanvasOp.setLineWidth (1 * dpr),
        CanvasOp.beginPath,
        CanvasOp.moveTo ⌊x * dpr⌋ ⌊(y + lh / 2) * dpr⌋,
        CanvasOp.lineTo ⌊(x + cw * (text.length : ℚ)) * dpr⌋ ⌊(y + lh / 2) * dpr⌋,
        CanvasOp.stroke]
    else []
  [CanvasOp.setFont font, CanvasOp.setTextBaseline ("ideographic"),
    CanvasOp.setFillStyle s.fgColor] ++ glyphs ++ deco

lemma floor_add_mul_eq (a b c : ℚ) : ⌊a * c + b * c⌋ = ⌊(a + b) * c⌋ := by
  congr 1
  ring

lemma floor_sub_mul_eq (a b d c : ℚ) : ⌊a * c + b * c - d * c⌋ = ⌊(a + b - d) * c⌋ := by
  congr 1
  ring

lemma floor_half_mul_eq (a b c : ℚ) : ⌊a * c + b * c / 2⌋ = ⌊(a + b / 2) * c⌋ := by
  congr 1
  ring

lemma floor_third_mul_eq (b c : ℚ) : ⌊b * c / 3⌋ = ⌊(b / 3) * c⌋ := by
  congr 1
  ring

/-- Claim C5: for every rectangle draw call and every text-run draw call,
each output device-pixel coordinate equals the floor of the corresponding
logical value times the device-pixel ratio: the code's
scale-then-combine-then-floor computations coincide with the
specification's floor-of-logical-value form. -/
theorem c5_floor_device_pixels (s : CanvasState) (text : List Char)
    (x y w h ch lh cw : ℚ) (color : String)
    (filled bold underline undercurl strike : Bool) (dpr : ℚ) :
    ScreenCanvas.drawRect x y w h color filled dpr =
      drawRectSpec x y w h color filled dpr ∧
    ScreenCanvas.drawText s text ch lh cw x y bold underline undercurl strike dpr =
      drawTextSpec s text ch lh cw x y bold underline undercurl strike dpr := by
  constructor
  · rfl
  · rw [ScreenCanvas.drawText, drawTextSpec]
    have hg : (text.enum.map fun p =>
        CanvasOp.fillText p.2 ⌊x * dpr + cw * dpr * (p.1 : ℚ)⌋ ⌊y * dpr + lh * dpr⌋) =
        text.enum.map fun p =>
          CanvasOp.fillText p.2 ⌊(x + cw * (p.1 : ℚ)) * dpr⌋ ⌊(y + lh) * dpr⌋ := by
      refine List.map_congr_left fun p _ => ?_
      rw [show x * dpr + cw * dpr * (p.1 : ℚ) = (x + cw * (p.1 : ℚ)) * dpr by ring,
        floor_add_mul_eq]
    rw [hg,
      show cw * dpr * ((text.length : ℕ) : ℚ) = cw * ((text.length : ℕ) : ℚ) * dpr by ring,
      floor_add_mul_eq x (cw * ((text.length : ℕ) : ℚ)) dpr,
      floor_sub_mul_eq y lh 3 dpr, floor_half_mul_eq y lh dpr, floor_third_mul_eq cw dpr]

/-- Claim C9 (code bug): with the filled flag true the rectangle is filled
with the given color, but with the filled flag false the source only adds
the rectangle to the current path via the path-building rect operation and
never issues a stroke, so no stroked outline is painted.  Evaluated at the
failing input drawRect 0 0 10 10 red false with ratio 1, and in general:
the unfilled branch contains no stroke and no fill operation. -/
theorem c9_unfilled_rect_not_stroked :
    ScreenCanvas.drawRect 0 0 10 10 ("red") false 1 =
      [CanvasOp.setFillStyle ("red"), CanvasOp.rectPath 0 0 10 10] ∧
    CanvasOp.stroke ∉ ScreenCanvas.drawRect 0 0 10 10 ("red") false 1 ∧
    (∀ (x y w h : ℚ) (color : String) (dpr : ℚ),
      ScreenCanvas.drawRect x y w h color true dpr =
        [CanvasOp.setFillStyle color,
          CanvasOp.fillRect ⌊x * dpr⌋ ⌊y * dpr⌋ ⌊w * dpr⌋ ⌊h * dpr⌋] ∧
      ScreenCanvas.drawRect x y w h color false dpr =
        [CanvasOp.setFillStyle color,
          CanvasOp.rectPath ⌊x * dpr⌋ ⌊y * dpr⌋ ⌊w * dpr⌋ ⌊h * dpr⌋] ∧
      CanvasOp.stroke ∉ ScreenCanvas.drawRect x y w h color false dpr ∧
      ∀ a b c d : Int,
        CanvasOp.fillRect a b c d ∉ ScreenCanvas.drawRect x y w h color false dpr) := by
  refine ⟨by norm_num [ScreenCanvas.drawRect], by simp [ScreenCanvas.drawRect],
    fun x y w h color dpr => ⟨rfl, rfl, ?_, fun a b c d => ?_⟩⟩
  · intro hmem
    simp [ScreenCanvas.drawRect] at hmem
  · intro hmem
    simp [ScreenCanvas.drawRect] at hmem

/-! ## VimWasm: top-level message dispatch -/

/-- Session state visible to the dispatcher: whether the resize and key
listeners are currently registered. -/
structure VimState where
  listenersActive : Bool
  deriving DecidableEq

/-- Observable side effects of the top-level dispatcher. -/
inductive MainEffect where
  | alert (message : String)
  | enqueueDraw (event : DrawEventMessage)
  | addListeners
  | removeListeners
  deriving DecidableEq

namespace VimWasm

/-- VimWasm onMessage: dispatches one inbound message.  The result is the
new session state, the effects performed in order, and the message of the
exception thrown, if any.  A draw message enqueues; started registers the
listeners; exit removes them; fatal alerts with the worker's message and
then throws it; an unrecognized kind throws without alerting.  Neither
fatal branch touches the listener registration. -/
def onMessage (s : VimState) (msg : MessageFromWorker) :
    VimState × List MainEffect × Option String :=
  match msg with
  | .draw ev => (s, [MainEffect.enqueueDraw ev], none)
  | .started => ({ listenersActive := true }, [MainEffect.addListeners], none)
  | .exit => ({ listenersActive := false }, [MainEffect.removeListeners], none)
  | .fatal m => (s, [MainEffect.alert m], some m)
  | .unknown kind =>
    (s, [], some ("FATAL: Unexpected message from worker: " ++ kind))

end VimWasm

/-- Counterexample to claim C4 as stated: the spec scenario.  When the
worker reports fatal out of memory during an active session, the listeners
are NOT removed — the session state still has them registered and no
remove-listeners effect is performed, so the input pipeline can still send
outbound messages afterwards. -/
theorem c4_counterexample :
    (VimWasm.onMessage ⟨true⟩ (MessageFromWorker.fatal ("out of memory"))).1.listenersActive
        = true ∧
    MainEffect.removeListeners ∉
      (VimWasm.onMessage ⟨true⟩ (MessageFromWorker.fatal ("out of memory"))).2.1 ∧
    InputHandler.onKeydown
        { key := "a", code := "KeyA", keyCode := 65,
          ctrlKey := false, shiftKey := false, altKey := false, metaKey := false } ≠ [] := by
  refine ⟨rfl, by decide, by decide⟩

/-- Claim C4 as amended: on an inbound fatal message the error message is
surfaced to the user (alert) and an exception carrying it is thrown,
aborting the dispatch; on an unrecognized message kind an exception is
thrown without an alert; in both cases the session state, in particular
the listener registration, is left unchanged — the listeners are not
removed. -/
theorem c4_fatal_behavior (s : VimState) (m kind : String) :
    VimWasm.onMessage s (MessageFromWorker.fatal m) =
      (s, [MainEffect.alert m], some m) ∧
    VimWasm.onMessage s (MessageFromWorker.unknown kind) =
      (s, [], some ("FATAL: Unexpected message from worker: " ++ kind)) ∧
    (VimWasm.onMessage s (MessageFromWorker.fatal m)).1 = s ∧
    (VimWasm.onMessage s (MessageFromWorker.unknown kind)).1 = s ∧
    MainEffect.removeListeners ∉ (VimWasm.onMessage s (MessageFromWorker.fatal m)).2.1 := by
  refine ⟨rfl, rfl, rfl, rfl, ?_⟩
  intro hmem
  simp [VimWasm.onMessage] at hmem

/-! ## ResizeHandler: the debounced resize pipeline

The browser timeline is modelled at millisecond granularity: at every
instant the viewport may change (which invokes the resize handler when the
listener is registered) and then any timer whose deadline is that instant
fires.  The timer token is the deadline of the one pending timeout;
re-arming overwrites it, which models clearTimeout followed by
setTimeout. -/

/-- State of the resize handler together with the observable environment:
the recorded element geometry, the current bounding rectangle of the
canvas, whether the resize listener is registered, the pending timeout (as
its deadline) and the resize messages sent so far (with send times). -/
structure RState where
  elemHeight : ℚ
  elemWidth : ℚ
  currentH : ℚ
  currentW : ℚ
  listenerActive : Bool
  token : Option ℕ
  sent : List (ℕ × ℚ × ℚ)
  deriving DecidableEq

namespace ResizeHandler

/-- ResizeHandler onVimExit: removes the resize listener.  The source does
not touch the pending timer here. -/
def onVimExit (s : RState) : RState :=
  { s with listenerActive := false }

/-- ResizeHandler onResize at instant t: clears any pending timeout and
arms a new one for one second later. -/
def onResize (t : ℕ) (s : RState) : RState :=
  { s with token := some (t + 1000) }

/-- ResizeHandler doResize at instant t: reads the current bounding
rectangle, records it, and sends one resize message carrying it. -/
def doResize (t : ℕ) (s : RState) : RState :=
  { s with elemWidth := s.currentW, elemHeight := s.currentH,
           sent := s.sent ++ [(t, s.currentH, s.currentW)] }

/-- A raw size change at instant t: the bounding rectangle becomes h by w,
and the resize handler runs when the listener is registered. -/
def notifyStep (t : ℕ) (h w : ℚ) (s : RState) : RState :=
  let s1 := { s with currentH := h, currentW := w }
  if s1.listenerActive then onResize t s1 else s1

/-- Timer processing at instant t: the pending timeout fires exactly when
its deadline is t; the callback clears the token and runs doResize. -/
def timerFire (t : ℕ) (s : RState) : RState :=
  match s.token with
  | some d => if d = t then doResize t { s with token := none } else s
  | none => s

/-- One instant of the timeline: the scheduled size change (if any), then
timer processing. -/
def stepAt (sched : ℕ → Option (ℚ × ℚ)) (t : ℕ) (s : RState) : RState :=
  timerFire t (match sched t with
    | some hw => notifyStep t hw.1 hw.2 s
    | none => s)

/-- Run the timeline from instant t0 for k instants. -/
def runT (sched : ℕ → Option (ℚ × ℚ)) : ℕ → ℕ → RState → RState
  | _, 0, s => s
  | t0, k + 1, s => runT sched (t0 + 1) k (stepAt sched t0 s)

/-- The size-change schedule induced by a burst of notifications given as
a list of instants with the rectangle observed there. -/
def schedOf : List (ℕ × ℚ × ℚ) → ℕ → Option (ℚ × ℚ)
  | [], _ => none
  | (t, h, w) :: rest, u => if u = t then some (h, w) else schedOf rest u

end ResizeHandler

/-- Two consecutive notifications of a burst: strictly increasing
instants, the later one arriving within the debounce window of the
earlier. -/
def burstRel (a b : ℕ × ℚ × ℚ) : Prop :=
  a.1 < b.1 ∧ b.1 < a.1 + 1000

namespace ResizeHandler

lemma runT_token_none (sched : ℕ → Option (ℚ × ℚ)) (t0 k : ℕ) (s : RState)
    (htok : s.token = none)
    (hq : ∀ u, t0 ≤ u → u < t0 + k → sched u = none) :
    runT sched t0 k s = s := by
  induction k generalizing t0 s with
  | zero => rfl
  | succ k ih =>
    have h0 : sched t0 = none := hq t0 le_rfl (by omega)
    have hstep : stepAt sched t0 s = s := by
      simp [stepAt, h0, timerFire, htok]
    rw [runT, hstep]
    exact ih (t0 + 1) s htok fun u hu1 hu2 => hq u (by omega) (by omega)

lemma runT_pending (sched : ℕ → Option (ℚ × ℚ)) (t0 k d : ℕ) (s : RState)
    (htok : s.token = some d)
    (hq : ∀ u, t0 ≤ u → u < t0 + k → sched u = none)
    (hk : t0 + k ≤ d) :
    runT sched t0 k s = s := by
  induction k generalizing t0 s with
  | zero => rfl
  | succ k ih =>
    have h0 : sched t0 = none := hq t0 le_rfl (by omega)
    have hd : d ≠ t0 := by omega
    have hstep : stepAt sched t0 s = s := by
      simp [stepAt, h0, timerFire, htok, hd]
    rw [runT, hstep]
    exact ih (t0 + 1) s htok (fun u hu1 hu2 => hq u (by omega) (by omega)) (by omega)

lemma runT_fires (sched : ℕ → Option (ℚ × ℚ)) (t0 k d : ℕ) (s : RState)
    (htok : s.token = some d)
    (hq : ∀ u, t0 ≤ u → u < t0 + k → sched u = none)
    (h1 : t0 ≤ d) (h2 : d < t0 + k) :
    runT sched t0 k s = doResize d { s with token := none } := by
  induction k generalizing t0 s with
  | zero => omega
  | succ k ih =>
    have h0 : sched t0 = none := hq t0 le_rfl (by omega)
    by_cases he : t0 = d
    · subst he
      have hstep : stepAt sched t0 s = doResize t0 { s with token := none } := by
        simp [stepAt, h0, timerFire, htok]
      rw [runT, hstep]
      exact runT_token_none sched (t0 + 1) k _ rfl
        fun u hu1 hu2 => hq u (by omega) (by omega)
    · have hd : d ≠ t0 := fun hh => he hh.symm
      have hstep : stepAt sched t0 s = s := by
        simp [stepAt, h0, timerFire, htok, hd]
      rw [runT, hstep]
      exact ih (t0 + 1) s htok (fun u hu1 hu2 => hq u (by omega) (by omega))
        (by omega) (by omega)

lemma runT_congr (sched1 sched2 : ℕ → Option (ℚ × ℚ)) (t0 k : ℕ) (s : RState)
    (hs : ∀ u, t0 ≤ u → u < t0 + k → sched1 u = sched2 u) :
    runT sched1 t0 k s = runT sched2 t0 k s := by
  induction k generalizing t0 s with
  | zero => rfl
  | succ k ih =>
    have hstep : stepAt sched1 t0 s = stepAt sched2 t0 s := by
      rw [stepAt, stepAt, hs t0 le_rfl (by omega)]
    rw [runT, runT, hstep]
    exact ih (t0 + 1) _ fun u hu1 hu2 => hs u (by omega) (by omega)

lemma runT_add (sched : ℕ → Option (ℚ × ℚ)) (t0 k1 k2 : ℕ) (s : RState) :
    runT sched t0 (k1 + k2) s = runT sched (t0 + k1) k2 (runT sched t0 k1 s) := by
  induction k1 generalizing t0 s with
  | zero => simp [runT]
  | succ k ih =>
    rw [show k + 1 + k2 = (k + k2) + 1 from by omega, runT, ih (t0 + 1),
      show t0 + 1 + k = t0 + (k + 1) from by omega]
    rfl

lemma schedOf_ne (burst : List (ℕ × ℚ × ℚ)) (u : ℕ)
    (hu : ∀ e ∈ burst, e.1 ≠ u) : schedOf burst u = none := by
  induction burst with
  | nil => rfl
  | cons e rest ih =>
    obtain ⟨t, h, w⟩ := e
    have ht : t ≠ u := hu (t, h, w) (by simp)
    rw [schedOf, if_neg fun hh => ht hh.symm]
    exact ih fun e he => hu e (by simp [he])

lemma chain_head_le (l : List (ℕ × ℚ × ℚ)) (hc : List.Chain' burstRel l)
    (hne : l ≠ []) : ∀ e ∈ l, (l.head hne).1 ≤ e.1 := by
  induction l with
  | nil => exact absurd rfl hne
  | cons a t ih =>
    intro e he
    rcases List.mem_cons.mp he with rfl | het
    · simp
    · have hta : t ≠ [] := List.ne_nil_of_mem het
      obtain ⟨b, t', rfl⟩ := List.exists_cons_of_ne_nil hta
      have h1 := List.chain'_cons.mp hc
      have h2 := ih h1.2 hta e het
      have h3 : a.1 < b.1 := h1.1.1
      simp only [List.head_cons] at h2 ⊢
      omega

lemma chain_head_le_last (l : List (ℕ × ℚ × ℚ)) (hc : List.Chain' burstRel l)
    (hne : l ≠ []) : (l.head hne).1 ≤ (l.getLast hne).1 :=
  chain_head_le l hc hne _ (List.getLast_mem hne)

end ResizeHandler

namespace ResizeHandler

lemma runT_burst : ∀ (burst : List (ℕ × ℚ × ℚ)) (hne : burst ≠ [])
    (hc : List.Chain' burstRel burst) (s : RState)
    (hact : s.listenerActive = true),
    runT (schedOf burst) (burst.head hne).1
        ((burst.getLast hne).1 + 1001 - (burst.head hne).1) s =
      { elemHeight := (burst.getLast hne).2.1, elemWidth := (burst.getLast hne).2.2,
        currentH := (burst.getLast hne).2.1, currentW := (burst.getLast hne).2.2,
        listenerActive := true, token := none,
        sent := s.sent ++ [((burst.getLast hne).1 + 1000, (burst.getLast hne).2.1,
          (burst.getLast hne).2.2)] } := by
  intro burst
  induction burst with
  | nil => intro hne; exact absurd rfl hne
  | cons a rest ih =>
    intro hne hc s hact
    obtain ⟨t, h, w⟩ := a
    rcases rest with _ | ⟨b, t'⟩
    · simp only [List.head_cons, List.getLast_singleton]
      rw [show t + 1001 - t = 1000 + 1 from by omega, runT]
      have hne1000 : t + 1000 ≠ t := by omega
      have hstep : stepAt (schedOf [(t, h, w)]) t s
          = { s with currentH := h, currentW := w, token := some (t + 1000) } := by
        simp [stepAt, schedOf, notifyStep, onResize, hact, timerFire, hne1000]
      rw [hstep]
      have hq1 : ∀ u, t + 1 ≤ u → u < (t + 1) + 1000 → schedOf [(t, h, w)] u = none := by
        intro u hu1 _
        apply schedOf_ne
        intro e he
        simp only [List.mem_singleton] at he
        subst he
        simp only
        omega
      rw [runT_fires _ (t + 1) 1000 (t + 1000) _ rfl hq1 (by omega) (by omega)]
      simp [doResize, hact]
    · have hrest : (b :: t' : List (ℕ × ℚ × ℚ)) ≠ [] := List.cons_ne_nil _ _
      obtain ⟨hab, hcr⟩ := List.chain'_cons.mp hc
      have ht2 : t < b.1 := hab.1
      have htw : b.1 < t + 1000 := hab.2
      have hbl : b.1 ≤ ((b :: t').getLast hrest).1 := by
        have := chain_head_le_last (b :: t') hcr hrest
        simpa using this
      simp only [List.head_cons]
      rw [List.getLast_cons hrest]
      rw [show ((b :: t').getLast hrest).1 + 1001 - t
            = (b.1 - t) + (((b :: t').getLast hrest).1 + 1001 - b.1) from by omega,
        runT_add, show t + (b.1 - t) = b.1 from by omega,
        show b.1 - t = (b.1 - t - 1) + 1 from by omega, runT]
      have hne1000 : t + 1000 ≠ t := by omega
      have hsched_t : schedOf ((t, h, w) :: b :: t') t = some (h, w) := by
        simp [schedOf]
      have hstep : stepAt (schedOf ((t, h, w) :: b :: t')) t s
          = { s with currentH := h, currentW := w, token := some (t + 1000) } := by
        simp [stepAt, hsched_t, notifyStep, onResize, hact, timerFire, hne1000]
      rw [hstep]
      have hqA : ∀ u, t + 1 ≤ u → u < (t + 1) + (b.1 - t - 1) →
          schedOf ((t, h, w) :: b :: t') u = none := by
        intro u hu1 hu2
        apply schedOf_ne
        intro e he
        rcases List.mem_cons.mp he with rfl | he2
        · simp only
          omega
        · have := chain_head_le (b :: t') hcr hrest e he2
          simp only [List.head_cons] at this
          omega
      rw [runT_pending _ (t + 1) (b.1 - t - 1) (t + 1000) _ rfl hqA (by omega)]
      have hcong : ∀ u, b.1 ≤ u → u < b.1 + (((b :: t').getLast hrest).1 + 1001 - b.1) →
          schedOf ((t, h, w) :: b :: t') u = schedOf (b :: t') u := by
        intro u hu1 _
        rw [schedOf, if_neg (by omega)]
      rw [runT_congr _ _ b.1 _ _ hcong]
      have hihs := ih hrest hcr
        { s with currentH := h, currentW := w, token := some (t + 1000) } hact
      simp only [List.head_cons] at hihs
      rw [hihs]

end ResizeHandler

/-- Claim C2: each raw resize notification cancels any pending timer and
arms a new one for one second later, and for every burst of notifications
arriving within the debounce window (consecutive instants strictly
increasing and less than 1000 ms apart), running the timeline from the
first notification until just past the last deadline sends exactly one
resize message, carrying the geometry observed at the last notification of
the burst, exactly 1000 ms after that last notification. -/
theorem c2_resize_debounce (burst : List (ℕ × ℚ × ℚ)) (s0 : RState)
    (hne : burst ≠ []) (hc : List.Chain' burstRel burst)
    (hact : s0.listenerActive = true) (hsent : s0.sent = []) :
    (∀ (t : ℕ) (h w : ℚ) (s : RState), s.listenerActive = true →
      (ResizeHandler.notifyStep t h w s).token = some (t + 1000)) ∧
    (ResizeHandler.runT (ResizeHandler.schedOf burst) (burst.head hne).1
        ((burst.getLast hne).1 + 1001 - (burst.head hne).1) s0).sent =
      [((burst.getLast hne).1 + 1000, (burst.getLast hne).2.1,
        (burst.getLast hne).2.2)] := by
  constructor
  · intro t h w s hs
    simp [ResizeHandler.notifyStep, ResizeHandler.onResize, hs]
  · rw [ResizeHandler.runT_burst burst hne hc s0 hact]
    simp [hsent]

/-- Witness for C2: the spec scenario shape with two notifications 100 ms
apart ending at geometry 600 by 800; exactly one resize message is sent,
at 1000 ms after the last notification, carrying 600 by 800. -/
theorem c2_resize_debounce_witness :
    (ResizeHandler.runT (ResizeHandler.schedOf [(0, 300, 400), (100, 600, 800)]) 0 1101
        ⟨100, 200, 100, 200, true, none, []⟩).sent = [(1100, 600, 800)] := by
  have hmain := (c2_resize_debounce [(0, 300, 400), (100, 600, 800)]
    ⟨100, 200, 100, 200, true, none, []⟩ (by simp)
    (by simp [List.chain'_cons, List.chain'_singleton, burstRel]) rfl rfl).2
  simpa using hmain

/-- Claim C8 (code bug): tearing the resize handler down while a debounce
timer is pending does NOT cancel the timer — onVimExit only removes the
listener — so the timer later fires and a resize message IS sent after
teardown; only new notifications arriving after teardown are ignored.
Failing input: a notification at instant 0 with rectangle 600 by 800,
teardown before the deadline, timer processing at instant 1000. -/
theorem c8_teardown_timer_bug :
    (ResizeHandler.onVimExit
        (ResizeHandler.notifyStep 0 600 800
          (⟨100, 200, 100, 200, true, none, []⟩ : RState))).token = some 1000 ∧
    (ResizeHandler.timerFire 1000
        (ResizeHandler.onVimExit
          (ResizeHandler.notifyStep 0 600 800
            (⟨100, 200, 100, 200, true, none, []⟩ : RState)))).sent =
      [(1000, 600, 800)] ∧
    (∀ (t : ℕ) (h w : ℚ) (s : RState),
      (ResizeHandler.notifyStep t h w (ResizeHandler.onVimExit s)).token =
        (ResizeHandler.onVimExit s).token) := by
  refine ⟨rfl, rfl, fun t h w s => ?_⟩
  simp [ResizeHandler.notifyStep, ResizeHandler.onVimExit]
